import Mathlib

/-!
Shallow embedding of the kilo text editor (src/kilo.c, final revision) in
Lean 4, together with theorems checking the natural-language specification
against the code.

Bytes are modelled as natural numbers (octets); the C `int` fields of
`struct editorConfig` are modelled as `Int`.  A row's `size`/`rsize` fields
are represented by the lengths of the `chars`/`render` byte lists (the code
maintains exactly that correspondence).  Out-of-bounds array accesses,
which are undefined behaviour in C, are modelled by a default empty row;
all theorems that depend on a row access carry validity hypotheses that
keep the access in bounds.
-/

namespace Kilo

/-- KILO_TAB_STOP from src/kilo.c line 419. -/
def KILO_TAB_STOP : Nat := 4

/-- The editorKey enumeration, src/kilo.c lines 423-434. -/
def BACKSPACE : Nat := 127

def ARROW_LEFT : Nat := 1000

def ARROW_RIGHT : Nat := 1001

def ARROW_UP : Nat := 1002

def ARROW_DOWN : Nat := 1003

def DEL_KEY : Nat := 1004

def HOME_KEY : Nat := 1005

def END_KEY : Nat := 1006

def PAGE_UP : Nat := 1007

def PAGE_DOWN : Nat := 1008

/-- One text row (struct erow, src/kilo.c lines 440-445).  `size` is
`chars.length` and `rsize` is `render.length`. -/
structure Erow where
  chars : List Nat
  render : List Nat
deriving Repr, DecidableEq

/-- editorRowCxToRx (src/kilo.c lines 617-626): walk the first `cx` bytes of
the row, adding 1 per byte, and for a tab first adding
`(KILO_TAB_STOP - 1) - rx % KILO_TAB_STOP`. -/
def editorRowCxToRx (chars : List Nat) (cx : Nat) : Nat :=
  (chars.take cx).foldl
    (fun rx c =>
      if c = 9 then rx + ((KILO_TAB_STOP - 1) - rx % KILO_TAB_STOP) + 1 else rx + 1)
    0

/-- The render form built by editorUpdateRow (src/kilo.c lines 631-651):
each tab becomes one space followed by further spaces until the length of
the output is a multiple of KILO_TAB_STOP (the C while-loop
`while (idx % KILO_TAB_STOP != 0) render[idx++] = ' '`); every other byte
is copied.  The write index `idx` of the C code is the length of the
accumulator. -/
def editorUpdateRow (chars : List Nat) : List Nat :=
  chars.foldl
    (fun acc c =>
      if c = 9 then
        let acc2 := acc ++ [32]
        acc2 ++ List.replicate ((KILO_TAB_STOP - acc2.length % KILO_TAB_STOP) % KILO_TAB_STOP) 32
      else acc ++ [c])
    []

/-- The effective insertion index of editorRowInsertChar: the first line of
the function (src/kilo.c line 671) replaces an out-of-range position
(`at < 0 || at > row->size`) by `row->size`. -/
def effInsertAt (row : Erow) (at_ : Int) : Int :=
  if at_ < 0 ∨ at_ > (row.chars.length : Int) then (row.chars.length : Int) else at_

/-- editorRowInsertChar (src/kilo.c lines 670-678): the byte `c` is
inserted at the effective index (the bytes from that index on shift
right), the size grows by one, and the render form is recomputed by
editorUpdateRow. -/
def editorRowInsertChar (row : Erow) (at_ : Int) (c : Nat) : Erow :=
  let at2 : Int := effInsertAt row at_
  let chars := row.chars.take at2.toNat ++ [c] ++ row.chars.drop at2.toNat
  { chars := chars, render := editorUpdateRow chars }

/-- editorReadKey (src/kilo.c lines 520-570), decoding part.  The first
byte obtained by the blocking read loop is `c`; the further non-blocking
reads of the escape path take successive bytes of `pending` and fail (read
returns 0, the code answers a lone escape) when `pending` is exhausted. -/
def editorReadKey (c : Nat) (pending : List Nat) : Nat :=
  if c = 27 then
    match pending with
    | s0 :: s1 :: rest =>
      if s0 = 91 then
        if 48 ≤ s1 ∧ s1 ≤ 57 then
          match rest with
          | s2 :: _ =>
            if s2 = 126 then
              if s1 = 49 then HOME_KEY
              else if s1 = 51 then DEL_KEY
              else if s1 = 52 then END_KEY
              else if s1 = 53 then PAGE_UP
              else if s1 = 54 then PAGE_DOWN
              else if s1 = 55 then HOME_KEY
              else if s1 = 56 then END_KEY
              else 27
            else 27
          | [] => 27
        else
          if s1 = 65 then ARROW_UP
          else if s1 = 66 then ARROW_DOWN
          else if s1 = 67 then ARROW_RIGHT
          else if s1 = 68 then ARROW_LEFT
          else if s1 = 72 then HOME_KEY
          else if s1 = 70 then END_KEY
          else 27
      else if s0 = 79 then
        if s1 = 72 then HOME_KEY
        else if s1 = 70 then END_KEY
        else 27
      else 27
    | _ => 27
  else c

/-- The global editor state (struct editorConfig, src/kilo.c lines 448-461).
`numrows` is kept as its own field exactly as in the C struct; in every
state the program reaches it equals `row.length`. -/
structure EditorConfig where
  cx : Int
  cy : Int
  rx : Int
  rowoff : Int
  coloff : Int
  screenrows : Int
  screencols : Int
  numrows : Int
  row : List Erow
deriving Repr, DecidableEq

/-- Access `E.row[i]`.  A read outside the allocated rows is undefined
behaviour in C; it is modelled by the empty row. -/
def rowAt (rows : List Erow) (i : Int) : Erow :=
  if h : 0 ≤ i ∧ i.toNat < rows.length then rows.get ⟨i.toNat, h.2⟩ else ⟨[], []⟩

/-- Write `E.row[i] := r` (no effect at an out-of-bounds index, which the
program never performs). -/
def setRowAt (rows : List Erow) (i : Int) (r : Erow) : List Erow :=
  if 0 ≤ i then rows.set i.toNat r else rows

/-- editorAppendRow (src/kilo.c lines 653-668): grow the row array by one,
fill the new slot at index numrows with the given bytes and their render
form, and increment numrows. -/
def editorAppendRow (E : EditorConfig) (s : List Nat) : EditorConfig :=
  { E with
    row := E.row ++ [{ chars := s, render := editorUpdateRow s }]
    numrows := E.numrows + 1 }

/-- editorInsertChar (src/kilo.c lines 682-688): when the cursor is parked
one past the last row, append an empty row first; then insert into the row
at cy at position cx and advance cx. -/
def editorInsertChar (E : EditorConfig) (c : Nat) : EditorConfig :=
  let E := if E.cy = E.numrows then editorAppendRow E [] else E
  let newRow := editorRowInsertChar (rowAt E.row E.cy) E.cx c
  { E with row := setRowAt E.row E.cy newRow, cx := E.cx + 1 }

/-- editorScroll (src/kilo.c lines 741-758): recompute rx from (cy, cx),
then clamp rowoff against cy and coloff against rx with four sequential
if-statements. -/
def editorScroll (E : EditorConfig) : EditorConfig :=
  let rx : Int := if E.cy < E.numrows then (editorRowCxToRx (rowAt E.row E.cy).chars E.cx.toNat : Int) else 0
  let rowoff1 : Int := if E.cy < E.rowoff then E.cy else E.rowoff
  let rowoff2 : Int := if E.cy ≥ rowoff1 + E.screenrows then E.cy - E.screenrows + 1 else rowoff1
  let coloff1 : Int := if rx < E.coloff then rx else E.coloff
  let coloff2 : Int := if rx ≥ coloff1 + E.screencols then rx - E.screencols + 1 else coloff1
  { E with rx := rx, rowoff := rowoff2, coloff := coloff2 }

/-- The switch statement of editorMoveCursor (src/kilo.c lines 883-905).
The C code first takes `row = (cy >= numrows) ? NULL : &E.row[cy]`; the
ARROW_RIGHT guards `row && ...` therefore test `cy < numrows` first.  An
unknown key leaves the state unchanged. -/
def moveCursorSwitch (key : Nat) (E : EditorConfig) : EditorConfig :=
  if key = ARROW_LEFT then
    if E.cx ≠ 0 then { E with cx := E.cx - 1 }
    else if E.cy > 0 then
      { E with cy := E.cy - 1, cx := ((rowAt E.row (E.cy - 1)).chars.length : Int) }
    else E
  else if key = ARROW_RIGHT then
    if E.cy < E.numrows ∧ E.cx < ((rowAt E.row E.cy).chars.length : Int) then
      { E with cx := E.cx + 1 }
    else if E.cy < E.numrows ∧ E.cx = ((rowAt E.row E.cy).chars.length : Int) then
      { E with cy := E.cy + 1, cx := 0 }
    else E
  else if key = ARROW_UP then
    if E.cy ≠ 0 then { E with cy := E.cy - 1 } else E
  else if key = ARROW_DOWN then
    if E.cy < E.numrows - 1 then { E with cy := E.cy + 1 } else E
  else E

/-- editorMoveCursor (src/kilo.c lines 880-911): the switch on the key,
then -- rereading the row at the possibly new cy, with `rowlen = 0` when
the row pointer is NULL -- cx is clamped down to the row length. -/
def editorMoveCursor (key : Nat) (E : EditorConfig) : EditorConfig :=
  let E1 := moveCursorSwitch key E
  let rowlen : Int := if E1.cy ≥ E1.numrows then 0 else ((rowAt E1.row E1.cy).chars.length : Int)
  if E1.cx > rowlen then { E1 with cx := rowlen } else E1

/-- The append buffer (struct abuf, src/kilo.c lines 719-722).  `len` is
kept as its own field as in C; on the success path it always equals
`b.length`. -/
structure Abuf where
  b : List Nat
  len : Int
deriving Repr, DecidableEq

/-- abAppend (src/kilo.c lines 726-733) with the outcome of the realloc
made explicit: when the allocation fails (`allocOk = false`, realloc
returned NULL) the function returns before touching the buffer; otherwise
the bytes are copied after the current contents and len grows. -/
def abAppend (allocOk : Bool) (ab : Abuf) (s : List Nat) : Abuf :=
  if allocOk then { b := ab.b ++ s, len := ab.len + (s.length : Int) } else ab

/-- The welcome banner written by snprintf at src/kilo.c line 770:
"Kilo Editor -- version 0.0.1" (28 bytes). -/
def welcomeMessage : List Nat := "Kilo Editor -- version 0.0.1".data.map Char.toNat

/-- The welcome filler line (src/kilo.c lines 768-782): the banner is
truncated to the screen width, preceded by a tilde plus spaces centring
it.  C's `if (padding) ... while (padding--)` writes one tilde and then
`padding - 1` spaces when the integer padding is nonzero. -/
def drawWelcome (E : EditorConfig) : List Nat :=
  let welcomeLen : Int := if (28 : Int) > E.screencols then E.screencols else 28
  let padding : Int := Int.tdiv (E.screencols - welcomeLen) 2
  let pad : List Nat :=
    if padding ≠ 0 then 126 :: List.replicate (padding - 1).toNat 32
    else List.replicate padding.toNat 32
  pad ++ welcomeMessage.take welcomeLen.toNat

/-- The bytes one iteration of the editorDrawRows loop (src/kilo.c lines
763-791) appends before the trailing escape codes: a filler line (welcome
banner or tilde) when the file row is past the buffer, otherwise the slice
of the row's render form starting at coloff of length
`min(max(rsize - coloff, 0), screencols)`. -/
def drawRowContent (E : EditorConfig) (y : Int) : List Nat :=
  let filerow : Int := y + E.rowoff
  if filerow ≥ E.numrows then
    if E.numrows = 0 ∧ y = Int.tdiv E.screenrows 3 then drawWelcome E
    else [126]
  else
    let len1 : Int := ((rowAt E.row filerow).render.length : Int) - E.coloff
    let len2 : Int := if len1 < 0 then 0 else len1
    let len3 : Int := if len2 > E.screencols then E.screencols else len2
    (((rowAt E.row filerow).render.drop E.coloff.toNat).take len3.toNat)

/-- editorDrawRows (src/kilo.c lines 762-796): for each of the screenrows
visible lines append the line content, then the erase-to-end-of-line
sequence ESC [ K, then CR LF -- the CR LF is appended on every iteration,
the last one included. -/
def editorDrawRows (E : EditorConfig) (ab : List Nat) : List Nat :=
  (List.range E.screenrows.toNat).foldl
    (fun acc (y : Nat) => acc ++ drawRowContent E (Int.ofNat y) ++ [27, 91, 75] ++ [13, 10])
    ab

/-- What the process does next after a step of the main loop. -/
inductive ProgResult where
  | continue
  | exit (code : Int)
deriving Repr, DecidableEq

/-- die (src/kilo.c lines 469-475): write ESC [ 2 J and ESC [ H to clear
the screen and home the cursor, print a diagnostic with perror, and exit
with code 1.  The returned pair is the bytes written to the terminal and
the process outcome. -/
def die : List Nat × ProgResult :=
  ([27, 91, 50, 74] ++ [27, 91, 72], ProgResult.exit 1)

/-- The tail of editorRefreshScreen (src/kilo.c lines 866-867): the single
`write(STDOUT_FILENO, ab.b, ab.len)` of the accumulated buffer.  Its
return value -- `written`, the byte count of a complete or short write, or
-1 on failure -- is discarded by the code: the buffer is freed and the
function returns to the main loop whatever the outcome was. -/
def refreshScreenWriteStep (_ab : Abuf) (_written : Int) : ProgResult :=
  ProgResult.continue

/-- The cursor invariant of the specification: `0 <= cy <= numrows` and
`0 <= cx <= size` of the row at cy, the size being 0 when cy is the
past-the-end position `numrows`. -/
def cursorValid (E : EditorConfig) : Prop :=
  0 ≤ E.cy ∧ E.cy ≤ E.numrows ∧ 0 ≤ E.cx ∧
    E.cx ≤ (if E.cy = E.numrows then 0 else ((rowAt E.row E.cy).chars.length : Int))

instance (E : EditorConfig) : Decidable (cursorValid E) := by
  unfold cursorValid; infer_instance

/-- Variation on editorRowInsertChar whose insertion index follows the
specification text literally: `at` is "clamped to `[0, row.size]`", that
is, moved to the nearest endpoint of the range.  Used only to compare the
specification's words with the code. -/
def editorRowInsertCharClampedSpec (row : Erow) (at_ : Int) (c : Nat) : Erow :=
  let a : Int := max 0 (min at_ (row.chars.length : Int))
  let chars := row.chars.take a.toNat ++ [c] ++ row.chars.drop a.toNat
  { chars := chars, render := editorUpdateRow chars }

/-- One row of text "a", one visible screen row: the smallest frame with a
last content row. -/
def exRowA : Erow := { chars := [97], render := [97] }

def exC1 : EditorConfig :=
  { cx := 0, cy := 0, rx := 0, rowoff := 0, coloff := 0,
    screenrows := 1, screencols := 10, numrows := 1, row := [exRowA] }

/-- A two-byte frame buffer for the write-step counterexample. -/
def exAb : Abuf := { b := [104, 105], len := 2 }

/-- A valid state whose screen has zero visible text rows
(`E.screenrows -= 2` in initEditor leaves 0 for a two-row terminal). -/
def exC4 : EditorConfig :=
  { cx := 0, cy := 0, rx := 0, rowoff := 0, coloff := 0,
    screenrows := 0, screencols := 5, numrows := 1, row := [exRowA] }

/-- The same state on a terminal with a positive text area. -/
def exC4w : EditorConfig :=
  { cx := 0, cy := 0, rx := 0, rowoff := 0, coloff := 0,
    screenrows := 2, screencols := 5, numrows := 1, row := [exRowA] }

/-- A two-row document used to exercise cursor movement and insertion. -/
def exDoc : EditorConfig :=
  { cx := 0, cy := 0, rx := 0, rowoff := 0, coloff := 0,
    screenrows := 5, screencols := 10, numrows := 2,
    row := [{ chars := [97, 98], render := [97, 98] }, exRowA] }

/-- A state with the cursor parked one past the last row. -/
def exPastEnd : EditorConfig :=
  { cx := 0, cy := 2, rx := 0, rowoff := 0, coloff := 0,
    screenrows := 5, screencols := 10, numrows := 2,
    row := [{ chars := [97, 98], render := [97, 98] }, exRowA] }

/-- A state with the cursor at the end of row 0 (cx = size = 2). -/
def exEndOfLine : EditorConfig :=
  { cx := 2, cy := 0, rx := 0, rowoff := 0, coloff := 0,
    screenrows := 5, screencols := 10, numrows := 2,
    row := [{ chars := [97, 98], render := [97, 98] }, exRowA] }

/-! ## Theorems -/

/-- Stepping the render-form construction and the cx-to-rx translation in
parallel: the length of the render accumulator always equals the rx
accumulator. -/
theorem updateRow_length_eq_cxToRx_aux (chars : List Nat) :
    ∀ acc : List Nat,
      (chars.foldl
        (fun acc c =>
          if c = 9 then
            let acc2 := acc ++ [32]
            acc2 ++ List.replicate ((KILO_TAB_STOP - acc2.length % KILO_TAB_STOP) % KILO_TAB_STOP) 32
          else acc ++ [c]) acc).length =
      chars.foldl
        (fun rx c =>
          if c = 9 then rx + ((KILO_TAB_STOP - 1) - rx % KILO_TAB_STOP) + 1 else rx + 1)
        acc.length := by
  induction chars with
  | nil => intro acc; rfl
  | cons c cs ih =>
    intro acc
    simp only [List.foldl_cons]
    rw [ih]
    by_cases hc : c = 9
    · simp only [hc, if_pos]
      congr 1
      simp only [List.length_append, List.length_replicate, List.length_cons,
        List.length_nil, KILO_TAB_STOP]
      omega
    · simp [hc]

/-- C3: for every row, the tab-aware translation of the full row equals
the length of the render form produced by the row-update operation. -/
theorem rowCxToRx_full_eq_render_length (chars : List Nat) :
    editorRowCxToRx chars chars.length = (editorUpdateRow chars).length := by
  unfold editorRowCxToRx editorUpdateRow
  rw [List.take_length]
  exact (updateRow_length_eq_cxToRx_aux chars []).symm

/-- C6: the Key Decoder maps ESC [ 5 ~ to PageUp and ESC [ A to ArrowUp;
in the grammar ESC [ digit ~ the digits 1 and 7 give Home, 3 gives
Delete, 4 and 8 give End, 5 gives PageUp, 6 gives PageDown, and every
other digit collapses to a lone escape. -/
theorem readKey_escape_grammar :
    editorReadKey 27 [91, 53, 126] = PAGE_UP ∧
    editorReadKey 27 [91, 65] = ARROW_UP ∧
    editorReadKey 27 [91, 49, 126] = HOME_KEY ∧
    editorReadKey 27 [91, 55, 126] = HOME_KEY ∧
    editorReadKey 27 [91, 51, 126] = DEL_KEY ∧
    editorReadKey 27 [91, 52, 126] = END_KEY ∧
    editorReadKey 27 [91, 56, 126] = END_KEY ∧
    editorReadKey 27 [91, 54, 126] = PAGE_DOWN ∧
    ∀ d : Nat, 48 ≤ d → d ≤ 57 → d ∉ ([49, 51, 52, 53, 54, 55, 56] : List Nat) →
      editorReadKey 27 [91, d, 126] = 27 := by
  refine ⟨rfl, rfl, rfl, rfl, rfl, rfl, rfl, rfl, ?_⟩
  intro d h1 h2 h3
  interval_cases d <;> simp_all <;> rfl

/-- A digit with no mapping, 2, collapses to a lone escape. -/
theorem readKey_escape_grammar_witness : editorReadKey 27 [91, 50, 126] = 27 :=
  readKey_escape_grammar.2.2.2.2.2.2.2.2 50 (by decide) (by decide) (by decide)

/-- C9 (amended): editorRowInsertChar inserts the byte at the effective
index, which is `at` itself when `0 ≤ at ≤ row.size` and `row.size` (not
the nearest endpoint of the range) otherwise; the index always lies in
`[0, row.size]`, the size grows by exactly one, the later bytes shift
right, and the render form is recomputed. -/
theorem rowInsertChar_effective_index (row : Erow) (at_ : Int) (c : Nat) :
    (editorRowInsertChar row at_ c).chars.length = row.chars.length + 1 ∧
    0 ≤ effInsertAt row at_ ∧
    effInsertAt row at_ ≤ (row.chars.length : Int) ∧
    ((at_ < 0 ∨ (row.chars.length : Int) < at_) → effInsertAt row at_ = (row.chars.length : Int)) ∧
    (0 ≤ at_ → at_ ≤ (row.chars.length : Int) → effInsertAt row at_ = at_) ∧
    (editorRowInsertChar row at_ c).chars =
      row.chars.take (effInsertAt row at_).toNat ++ [c] ++ row.chars.drop (effInsertAt row at_).toNat ∧
    (editorRowInsertChar row at_ c).render =
      editorUpdateRow (editorRowInsertChar row at_ c).chars := by
  have h1 : 0 ≤ effInsertAt row at_ := by
    unfold effInsertAt; split_ifs with h <;> omega
  have h2 : effInsertAt row at_ ≤ (row.chars.length : Int) := by
    unfold effInsertAt; split_ifs with h <;> omega
  refine ⟨?_, h1, h2, ?_, ?_, rfl, rfl⟩
  · simp only [editorRowInsertChar, List.length_append, List.length_take,
      List.length_drop, List.length_cons, List.length_nil]
    omega
  · intro h; unfold effInsertAt; split_ifs with hh <;> omega
  · intro ha hb; unfold effInsertAt; split_ifs with hh <;> omega

/-- C9 witness: inserting 120 into "ab" at position 5 appends it. -/
theorem rowInsertChar_effective_index_witness :
    effInsertAt { chars := [97, 98], render := [97, 98] } 5 = 2 :=
  (rowInsertChar_effective_index { chars := [97, 98], render := [97, 98] } 5 120).2.2.2.1
    (by decide)

/-- C9 counterexample: for the row "ab" and at = -1, the code inserts the
byte at the end (index 2), whereas clamping -1 to the range [0, 2] would
insert it at index 0. -/
theorem rowInsertChar_clamp_counterexample :
    (editorRowInsertChar { chars := [97, 98], render := [97, 98] } (-1) 120).chars
      = [97, 98, 120] ∧
    (editorRowInsertCharClampedSpec { chars := [97, 98], render := [97, 98] } (-1) 120).chars
      = [120, 97, 98] ∧
    editorRowInsertChar { chars := [97, 98], render := [97, 98] } (-1) 120 ≠
      editorRowInsertCharClampedSpec { chars := [97, 98], render := [97, 98] } (-1) 120 := by
  decide

/-- C10: abAppend either fully succeeds, appending the bytes and growing
len, or -- when the realloc fails -- returns with the buffer unchanged. -/
theorem abAppend_alloc_failure_atomic (ab : Abuf) (s : List Nat) (allocOk : Bool) :
    abAppend false ab s = ab ∧
    (abAppend allocOk ab s = ab ∨
      abAppend allocOk ab s = { b := ab.b ++ s, len := ab.len + (s.length : Int) }) := by
  cases allocOk <;> simp [abAppend]

/-- C2 (amended): the single write of the frame buffer is performed with
its return value discarded, so the refresh step continues whatever the
outcome (short write, failure, or success); die -- the handler the code
uses for its fatal errors elsewhere -- clears the screen, homes the
cursor and exits with code 1, but is never invoked on the frame write. -/
theorem refresh_write_unchecked (ab : Abuf) (written : Int) :
    refreshScreenWriteStep ab written = ProgResult.continue ∧
    die.1 = [27, 91, 50, 74] ++ [27, 91, 72] ∧
    die.2 = ProgResult.exit 1 :=
  ⟨rfl, rfl, rfl⟩

/-- C2 counterexample: a failed write (return -1) and a short write
(1 of 2 bytes) are both ignored; neither makes the program exit 1. -/
theorem refresh_write_fatal_counterexample :
    refreshScreenWriteStep exAb (-1) = ProgResult.continue ∧
    refreshScreenWriteStep exAb 1 = ProgResult.continue ∧
    ¬ refreshScreenWriteStep exAb (-1) = ProgResult.exit 1 := by
  decide

/-- Appending-fold over a list is the initial accumulator followed by the
concatenation of the per-element blocks. -/
theorem foldl_append3_eq_flatten {α β : Type} (f g h : α → List β) (l : List α) :
    ∀ acc : List β,
      l.foldl (fun acc x => acc ++ f x ++ g x ++ h x) acc
        = acc ++ (l.map (fun x => f x ++ g x ++ h x)).flatten := by
  induction l with
  | nil => intro acc; simp
  | cons x xs ih => intro acc; rw [List.foldl_cons, ih]; simp [List.append_assoc]

/-- C1 (amended): editorDrawRows appends, for each visible row, the row
content followed by the erase-to-end-of-line sequence ESC [ K and a CR LF
line break -- after every content row, the last one included; on a screen
with at least one row the buffer handed on to the status bar therefore
ends with a line break. -/
theorem drawRows_structure (E : EditorConfig) (ab : List Nat) :
    editorDrawRows E ab =
      ab ++ ((List.range E.screenrows.toNat).map
        (fun (y : Nat) => drawRowContent E (Int.ofNat y) ++ [27, 91, 75] ++ [13, 10])).flatten ∧
    (1 ≤ E.screenrows → List.IsSuffix [13, 10] (editorDrawRows E ab)) := by
  have heq : editorDrawRows E ab =
      ab ++ ((List.range E.screenrows.toNat).map
        (fun (y : Nat) => drawRowContent E (Int.ofNat y) ++ [27, 91, 75] ++ [13, 10])).flatten := by
    unfold editorDrawRows
    exact foldl_append3_eq_flatten
      (fun (y : Nat) => drawRowContent E (Int.ofNat y))
      (fun _ => [27, 91, 75]) (fun _ => [13, 10]) _ ab
  refine ⟨heq, fun hsr => ?_⟩
  obtain ⟨m, hm⟩ : ∃ m, E.screenrows.toNat = m + 1 := ⟨E.screenrows.toNat - 1, by omega⟩
  rw [heq, hm, List.range_succ, List.map_append, List.flatten_append]
  refine ⟨ab ++ ((List.range m).map
      (fun (y : Nat) => drawRowContent E (Int.ofNat y) ++ [27, 91, 75] ++ [13, 10])).flatten ++
      (drawRowContent E (Int.ofNat m) ++ [27, 91, 75]), ?_⟩
  simp [List.append_assoc]

/-- C1 witness: on the one-row one-line frame, the bytes produced by
editorDrawRows end with CR LF. -/
theorem drawRows_structure_witness :
    List.IsSuffix [13, 10] (editorDrawRows exC4w []) :=
  (drawRows_structure exC4w []).2 (by decide)

/-- C1 counterexample: with one visible screen row showing the one-line
document "a", the frame renderer emits the row, the erase-to-end-of-line
sequence, and then a CR LF line break after this last content row, so the
status bar does not follow the row directly. -/
theorem drawRows_last_row_linebreak_counterexample :
    editorDrawRows exC1 [] = [97, 27, 91, 75, 13, 10] ∧
    (editorDrawRows exC1 []).drop 4 = [13, 10] := by
  decide

/-- C4 (amended): on a screen with at least one visible row and column,
after editorScroll the cursor row lies inside the vertical window and the
render column inside the horizontal window.  The positivity of the screen
extents is necessary: see the counterexample with screenrows = 0. -/
theorem scroll_viewport_invariant (E : EditorConfig)
    (hnr : 0 < E.numrows)
    (hcy0 : 0 ≤ E.cy) (hcyn : E.cy ≤ E.numrows)
    (hcx0 : 0 ≤ E.cx) (hcx : E.cx ≤ ((rowAt E.row E.cy).chars.length : Int))
    (hsr : 1 ≤ E.screenrows) (hsc : 1 ≤ E.screencols) :
    (editorScroll E).rowoff ≤ (editorScroll E).cy ∧
    (editorScroll E).cy < (editorScroll E).rowoff + (editorScroll E).screenrows ∧
    (editorScroll E).coloff ≤ (editorScroll E).rx ∧
    (editorScroll E).rx < (editorScroll E).coloff + (editorScroll E).screencols := by
  cases E with
  | mk cx cy rx rowoff coloff screenrows screencols numrows row =>
    simp only [editorScroll] at *
    split_ifs <;> refine ⟨by omega, by omega, by omega, by omega⟩

/-- C4 witness: the invariant at a valid one-line state on a 2 x 5 text
area. -/
theorem scroll_viewport_invariant_witness :
    (editorScroll exC4w).rowoff ≤ (editorScroll exC4w).cy ∧
    (editorScroll exC4w).cy < (editorScroll exC4w).rowoff + (editorScroll exC4w).screenrows ∧
    (editorScroll exC4w).coloff ≤ (editorScroll exC4w).rx ∧
    (editorScroll exC4w).rx < (editorScroll exC4w).coloff + (editorScroll exC4w).screencols :=
  scroll_viewport_invariant exC4w (by decide) (by decide) (by decide) (by decide)
    (by decide) (by decide) (by decide)

/-- C4 counterexample: a valid state (numrows = 1, cursor at the origin of
row "a") whose screen has zero visible text rows -- as initEditor produces
on a two-row terminal -- ends up with rowoff = 1 > cy = 0 after
editorScroll, violating the claimed invariant. -/
theorem scroll_invariant_counterexample :
    0 < exC4.numrows ∧ 0 ≤ exC4.cy ∧ exC4.cy ≤ exC4.numrows ∧ 0 ≤ exC4.cx ∧
    exC4.cx ≤ ((rowAt exC4.row exC4.cy).chars.length : Int) ∧
    ¬ ((editorScroll exC4).rowoff ≤ (editorScroll exC4).cy) := by
  decide

set_option maxHeartbeats 2000000 in
/-- C8: editorScroll is idempotent -- a second call with no intervening
cursor movement leaves rx, rowoff and coloff (and the whole state)
unchanged. -/
theorem scroll_idempotent (E : EditorConfig) :
    editorScroll (editorScroll E) = editorScroll E := by
  cases E with
  | mk cx cy rx rowoff coloff screenrows screencols numrows row =>
    simp only [editorScroll]
    simp only [EditorConfig.mk.injEq, true_and, and_true]
    refine ⟨?_, ?_⟩ <;> split_ifs <;> omega

/-- Reading the slot just past the old rows after an append yields the
appended row. -/
theorem rowAt_append_length (rows : List Erow) (r : Erow) :
    rowAt (rows ++ [r]) (rows.length : Int) = r := by
  unfold rowAt
  have hlen : ((rows.length : Int)).toNat = rows.length := Int.toNat_natCast rows.length
  have hc : (0 : Int) ≤ (rows.length : Int) ∧
      ((rows.length : Int)).toNat < (rows ++ [r]).length := by
    refine ⟨Int.natCast_nonneg _, ?_⟩
    simp [hlen]
  rw [dif_pos hc]
  simp only [List.get_eq_getElem]
  exact List.getElem_concat_length rows r _ hlen (by simp [hlen])

/-- Reading back the row just stored at an in-bounds index. -/
theorem rowAt_setRowAt_self (rows : List Erow) (i : Int) (r : Erow)
    (h0 : 0 ≤ i) (h1 : i.toNat < rows.length) :
    rowAt (setRowAt rows i r) i = r := by
  unfold rowAt setRowAt
  rw [if_pos h0]
  have hc : 0 ≤ i ∧ i.toNat < (rows.set i.toNat r).length := ⟨h0, by simpa using h1⟩
  rw [dif_pos hc]
  simp only [List.get_eq_getElem]
  exact List.getElem_set_self (by simpa using h1)

/-- Storing a row at any index keeps the number of rows. -/
theorem setRowAt_length (rows : List Erow) (i : Int) (r : Erow) :
    (setRowAt rows i r).length = rows.length := by
  unfold setRowAt; split_ifs <;> simp

/-- C7: inserting with the cursor parked one past the last row first
appends an empty row, which receives the byte, and the state gains a row;
inserting at cx = row.size appends the byte to that row, growing it by
exactly one, and in both cases cx advances by one. -/
theorem insertChar_spec (E : EditorConfig) (c : Nat) :
    (E.cy = E.numrows → 0 ≤ E.cy → E.numrows = (E.row.length : Int) →
      ((editorInsertChar E c).numrows = E.numrows + 1 ∧
       (editorInsertChar E c).row.length = E.row.length + 1 ∧
       (rowAt (editorInsertChar E c).row E.cy).chars = [c] ∧
       (editorInsertChar E c).cx = E.cx + 1)) ∧
    (0 ≤ E.cy → E.cy < E.numrows → E.numrows = (E.row.length : Int) →
      E.cx = ((rowAt E.row E.cy).chars.length : Int) →
      ((rowAt (editorInsertChar E c).row E.cy).chars = (rowAt E.row E.cy).chars ++ [c] ∧
       (rowAt (editorInsertChar E c).row E.cy).chars.length
         = (rowAt E.row E.cy).chars.length + 1 ∧
       (editorInsertChar E c).cx = E.cx + 1)) := by
  constructor
  · intro hcy h0 hnum
    have hcyL : E.cy = (E.row.length : Int) := by omega
    unfold editorInsertChar
    rw [if_pos hcy]
    simp only [editorAppendRow]
    have hrow : rowAt (E.row ++ [{ chars := [], render := editorUpdateRow [] }]) E.cy
        = { chars := [], render := editorUpdateRow [] } := by
      rw [hcyL]; exact rowAt_append_length _ _
    have hins : (editorRowInsertChar { chars := [], render := editorUpdateRow [] } E.cx c).chars
        = [c] := by
      simp [editorRowInsertChar]
    have hget : rowAt
        (setRowAt (E.row ++ [{ chars := [], render := editorUpdateRow [] }]) E.cy
          (editorRowInsertChar (rowAt (E.row ++ [{ chars := [], render := editorUpdateRow [] }]) E.cy) E.cx c))
        E.cy
        = editorRowInsertChar (rowAt (E.row ++ [{ chars := [], render := editorUpdateRow [] }]) E.cy) E.cx c := by
      refine rowAt_setRowAt_self _ _ _ h0 ?_
      simp only [List.length_append, List.length_cons, List.length_nil]
      omega
    rw [hrow] at hget
    refine ⟨by simp, ?_, ?_, by simp⟩
    · rw [setRowAt_length]; simp
    · rw [hrow, hget]; exact hins
  · intro h0 hlt hnum hcx
    have hne : ¬ (E.cy = E.numrows) := by omega
    have hbound : E.cy.toNat < E.row.length := by omega
    unfold editorInsertChar
    rw [if_neg hne]
    have hget : rowAt (setRowAt E.row E.cy (editorRowInsertChar (rowAt E.row E.cy) E.cx c)) E.cy
        = editorRowInsertChar (rowAt E.row E.cy) E.cx c :=
      rowAt_setRowAt_self _ _ _ h0 hbound
    have hins : (editorRowInsertChar (rowAt E.row E.cy) E.cx c).chars
        = (rowAt E.row E.cy).chars ++ [c] := by
      unfold editorRowInsertChar effInsertAt
      rw [if_neg (by omega)]
      rw [hcx]
      simp [Int.toNat_natCast]
    refine ⟨?_, ?_, by simp⟩
    · simp only [hget, hins]
    · simp only [hget, hins, List.length_append, List.length_cons, List.length_nil]

/-- C7 witness: with the cursor past the end of the two-row document a new
row is created holding the inserted byte, and at the end of row "ab"
(cx = 2) the row grows to "abc". -/
theorem insertChar_spec_witness :
    ((editorInsertChar exPastEnd 99).numrows = exPastEnd.numrows + 1 ∧
     (editorInsertChar exPastEnd 99).row.length = exPastEnd.row.length + 1 ∧
     (rowAt (editorInsertChar exPastEnd 99).row exPastEnd.cy).chars = [99] ∧
     (editorInsertChar exPastEnd 99).cx = exPastEnd.cx + 1) ∧
    ((rowAt (editorInsertChar exEndOfLine 99).row exEndOfLine.cy).chars
       = (rowAt exEndOfLine.row exEndOfLine.cy).chars ++ [99] ∧
     (rowAt (editorInsertChar exEndOfLine 99).row exEndOfLine.cy).chars.length
       = (rowAt exEndOfLine.row exEndOfLine.cy).chars.length + 1 ∧
     (editorInsertChar exEndOfLine 99).cx = exEndOfLine.cx + 1) :=
  ⟨(insertChar_spec exPastEnd 99).1 (by decide) (by decide) (by decide),
   (insertChar_spec exEndOfLine 99).2 (by decide) (by decide) (by decide) (by decide)⟩

/-- The switch arm of editorMoveCursor never touches the row store. -/
theorem moveCursorSwitch_row_numrows (key : Nat) (E : EditorConfig) :
    (moveCursorSwitch key E).row = E.row ∧ (moveCursorSwitch key E).numrows = E.numrows := by
  unfold moveCursorSwitch
  split_ifs <;> exact ⟨rfl, rfl⟩

/-- The switch arm keeps cy within [0, numrows]. -/
theorem moveCursorSwitch_cy_bounds (key : Nat) (E : EditorConfig)
    (h1 : 0 ≤ E.cy) (h2 : E.cy ≤ E.numrows) :
    0 ≤ (moveCursorSwitch key E).cy ∧ (moveCursorSwitch key E).cy ≤ E.numrows := by
  cases E with
  | mk cx cy rx rowoff coloff sr sc numrows row =>
  simp only at h1 h2
  unfold moveCursorSwitch
  split_ifs <;> simp_all <;> omega

/-- The switch arm keeps cx nonnegative. -/
theorem moveCursorSwitch_cx_nonneg (key : Nat) (E : EditorConfig) (h3 : 0 ≤ E.cx) :
    0 ≤ (moveCursorSwitch key E).cx := by
  cases E with
  | mk cx cy rx rowoff coloff sr sc numrows row =>
  simp only at h3
  unfold moveCursorSwitch
  split_ifs <;> simp_all <;> omega

/-- A single editorMoveCursor call, whatever the key, takes a valid cursor
to a valid cursor: the switch moves cy only to positions in [0, numrows]
and the final clamp pins cx into [0, rowlen]. -/
theorem moveCursor_preserves_valid (key : Nat) (E : EditorConfig) (h : cursorValid E) :
    cursorValid (editorMoveCursor key E) := by
  obtain ⟨h1, h2, h3, h4⟩ := h
  have hrow := (moveCursorSwitch_row_numrows key E).1
  have hnum := (moveCursorSwitch_row_numrows key E).2
  have hcy := moveCursorSwitch_cy_bounds key E h1 h2
  have hcx := moveCursorSwitch_cx_nonneg key E h3
  simp only [cursorValid, editorMoveCursor, hrow, hnum]
  split_ifs <;> (simp_all; try omega)

/-- C5: after any sequence of editorMoveCursor calls with arrow keys
starting from a valid state, the cursor stays valid: 0 <= cy <= numrows
and 0 <= cx <= size of the row at cy (0 at the past-end position). -/
theorem moveCursor_sequence_valid (keys : List Nat) (E : EditorConfig)
    (hk : ∀ k ∈ keys, k = ARROW_UP ∨ k = ARROW_DOWN ∨ k = ARROW_LEFT ∨ k = ARROW_RIGHT)
    (h : cursorValid E) :
    cursorValid (keys.foldl (fun s k => editorMoveCursor k s) E) := by
  induction keys generalizing E with
  | nil => exact h
  | cons k ks ih =>
    exact ih _ (fun x hx => hk x (List.mem_cons_of_mem _ hx))
      (moveCursor_preserves_valid k E h)

/-- C5 witness: a concrete right-down-left-up walk over the two-row
document keeps the cursor valid. -/
theorem moveCursor_sequence_valid_witness :
    cursorValid (([ARROW_RIGHT, ARROW_DOWN, ARROW_LEFT, ARROW_UP] : List Nat).foldl
      (fun s k => editorMoveCursor k s) exDoc) :=
  moveCursor_sequence_valid [ARROW_RIGHT, ARROW_DOWN, ARROW_LEFT, ARROW_UP] exDoc
    (by decide) (by decide)

end Kilo
